import Mathlib

/-!
Verification of the identity-resolution and ranking engine of the
youtube-commenters-analysis scripts.  The Python sources are embedded
shallowly: strings are Lean `String`s (ASCII inputs), Python integers
are `Nat`, and the float arithmetic of the engagement score is modelled
by exact rational arithmetic over `ℚ`.  External collaborators (the
Google Custom Search call, the YouTube API) are modelled as explicit
input data: a `SearchResult` value describes the complete observable
outcome of one search call.
-/

namespace YTCA

/-! ## Shared string utilities -/

/-- Python `needle in hay` on strings, as a scan over character lists.
`containsSub needle hay` is true iff `needle` occurs as a contiguous
substring of `hay`; the empty needle occurs in every string. -/
def containsSub (needle : List Char) : List Char → Bool
  | [] => needle.isEmpty
  | c :: t => needle.isPrefixOf (c :: t) || containsSub needle t

/-- Python `needle in hay` for `String`s. -/
def strContains (hay needle : String) : Bool :=
  containsSub needle.data hay.data

/-- Python `str.lower()` restricted to ASCII letters. -/
def lowerStr (s : String) : String :=
  String.mk (s.data.map Char.toLower)

/-- The whitespace characters of Python's `str.strip()` and of the
regex class `\s`, restricted to ASCII. -/
def isPySpace (c : Char) : Bool :=
  c = ' ' || c = '\t' || c = '\n' || c = '\r' || c = '\x0b' || c = '\x0c'

/-- Python `s.strip()`: remove leading and trailing whitespace. -/
def pyStrip (s : String) : String :=
  String.mk (((s.data.dropWhile isPySpace).reverse.dropWhile isPySpace).reverse)

/-- Insert `a` into `acc` behind every element `b` with `le b a`:
the insertion step of a stable insertion sort. -/
def insertLe (le : α → α → Bool) (a : α) : List α → List α
  | [] => [a]
  | b :: l => if le b a then b :: insertLe le a l else a :: b :: l

/-- Stable insertion sort (left-to-right fold): elements that compare
equal keep their input order. -/
def isortBy (le : α → α → Bool) (l : List α) : List α :=
  l.foldl (fun acc a => insertLe le a acc) []

/-- The suffix of `s` following the first occurrence of `sep`
(`none` when `sep` does not occur in `s`). -/
def dropThroughFirst (sep : List Char) : List Char → Option (List Char)
  | [] => if sep.isEmpty then some [] else none
  | c :: t =>
    if sep.isPrefixOf (c :: t) then some ((c :: t).drop sep.length)
    else dropThroughFirst sep t

/-- Fuel-driven worker for `afterLast`; every successful
`dropThroughFirst` with a non-empty separator strictly shrinks the
string, so `s.length` fuel always suffices. -/
def afterLastAux (sep : List Char) : Nat → List Char → List Char
  | 0, s => s
  | fuel + 1, s =>
    match dropThroughFirst sep s with
    | none => s
    | some rest => afterLastAux sep fuel rest

/-- Python `s.split(sep)[-1]` for a non-empty separator: the suffix of
`s` after the last occurrence of `sep`, or all of `s` when `sep` does
not occur. -/
def afterLast (sep s : List Char) : List Char :=
  afterLastAux sep s.length s

/-! ## find_instagram_profiles.py -/

/-- One Google Custom Search result item: the fields of `data['items']`
read by `search_instagram_profile` (`item['link']` and
`item.get('title', '')`). -/
structure SearchItem where
  link : String
  title : String
deriving DecidableEq

/-- The complete observable outcome of one
`requests.get(customsearch)` call in `search_instagram_profile`:
the call raised an exception, returned a non-200 status, returned 200
without an `items` key, or returned 200 with a list of items. -/
inductive SearchResult where
  | raiseErr : SearchResult
  | httpErr : SearchResult
  | noItems : SearchResult
  | items : List SearchItem → SearchResult
deriving DecidableEq

/-- The dict returned by `find_instagram_from_description` /
`search_instagram_profile` on success. -/
structure InstagramData where
  instagram_url : String
  instagram_username : String
  match_confidence : String
  source : String
deriving DecidableEq

/-- `username.replace(' ', '').replace('@', '').lower()`
(line 27 of find_instagram_profiles.py). -/
def cleanUsername (u : String) : String :=
  String.mk ((u.data.filter (fun c => !(c = ' ' || c = '@'))).map Char.toLower)

/-- `link.split('instagram.com/')[-1].split('/')[0].split('?')[0]`
(line 53): the segment after the last `instagram.com/`, cut at the
first `/` and then at the first `?`. -/
def extractIgUsername (link : String) : String :=
  String.mk
    (((afterLast "instagram.com/".data link.data).takeWhile
        (fun c => c ≠ '/')).takeWhile (fun c => c ≠ '?'))

/-- Line 51: `'instagram.com/' in link and not any(x in link for x in
['/p/', '/reel/', '/tv/'])`. -/
def isValidProfileLink (link : String) : Bool :=
  strContains link "instagram.com/" &&
    !(strContains link "/p/" || strContains link "/reel/" ||
      strContains link "/tv/")

/-- `len(set(a) & set(b))`: the number of distinct characters of `a`
that also occur in `b`. -/
def distinctCommonCount (a b : List Char) : Nat :=
  (a.dedup.filter (fun c => b.contains c)).length

/-- The `for item in data['items']` loop of `search_instagram_profile`
(lines 46–65).  The float comparison
`len(set(u) & set(v)) > len(u) * 0.5` is the exact half-integer test
`2 * |set(u) ∩ set(v)| > len(u)`. -/
def searchItemsLoop (clean_username : String) : List SearchItem → Option InstagramData
  | [] => none
  | item :: rest =>
    if isValidProfileLink item.link then
      if strContains (lowerStr (extractIgUsername item.link)) clean_username ||
          strContains clean_username (lowerStr (extractIgUsername item.link)) ||
          decide (clean_username.length <
            2 * distinctCommonCount clean_username.data
              (lowerStr (extractIgUsername item.link)).data) then
        some
          { instagram_url := item.link
            instagram_username := extractIgUsername item.link
            match_confidence :=
              if strContains (lowerStr (extractIgUsername item.link)) clean_username
              then "high" else "medium"
            source := "google_search" }
      else searchItemsLoop clean_username rest
    else searchItemsLoop clean_username rest

/-- `search_instagram_profile(username, ...)` (lines 23–71): any
exception, a non-200 status, a missing `items` key, or an item loop
that accepts nothing all yield `None`. -/
def search_instagram_profile (username : String) (resp : SearchResult) :
    Option InstagramData :=
  match resp with
  | .raiseErr => none
  | .httpErr => none
  | .noItems => none
  | .items its => searchItemsLoop (cleanUsername username) its

/-- `find_instagram_from_description(description_links)` (lines 8–21):
if the cell is a non-empty, non-blank string, take the part before the
first comma, strip it, and on a non-empty result report its last
`/`-segment as the username with confidence `high`. -/
def find_instagram_from_description (description_links : String) :
    Option InstagramData :=
  if description_links = "" then none
  else if pyStrip description_links = "" then none
  else
    let first_link := pyStrip (String.mk (description_links.data.takeWhile (fun c => c ≠ ',')))
    if first_link = "" then none
    else
      some
        { instagram_url := first_link
          instagram_username :=
            String.mk ((first_link.data.reverse.takeWhile (fun c => c ≠ '/')).reverse)
          match_confidence := "high"
          source := "channel_description" }

/-- One input row of `main` in find_instagram_profiles.py: the columns
it reads (`author_name` and `instagram_from_description`; an absent or
empty description cell is the empty string). -/
structure Row where
  author_name : String
  instagram_from_description : String
deriving DecidableEq

/-- One output row appended to `results`: the row (represented by its
`author_name`) updated with the resolution fields. -/
structure OutRecord where
  author_name : String
  instagram_url : String
  instagram_username : String
  match_confidence : String
  source : String
deriving DecidableEq

/-- `result = row.to_dict(); result.update(instagram_data)`. -/
def mkOut (row : Row) (d : InstagramData) : OutRecord :=
  { author_name := row.author_name
    instagram_url := d.instagram_url
    instagram_username := d.instagram_username
    match_confidence := d.match_confidence
    source := d.source }

/-- The not-found update of lines 136–141: all four resolution fields
become the empty string. -/
def emptyOut (row : Row) : OutRecord :=
  { author_name := row.author_name
    instagram_url := ""
    instagram_username := ""
    match_confidence := ""
    source := "" }

/-- The `results` list built by the `for i, row in df.iterrows()` loop
of `main` (lines 110–152), starting at row index `i`.  `searchResp j`
is the outcome of the Google-search call the run would perform for the
row at index `j`.  A description hit appends and `continue`s (no break
test); otherwise one search call is made, the row is appended either
way, and the loop breaks after processing a row whose index satisfies
`i >= 50`. -/
def resolverOutput (searchResp : Nat → SearchResult) : Nat → List Row → List OutRecord
  | _, [] => []
  | i, row :: rest =>
    match find_instagram_from_description row.instagram_from_description with
    | some d => mkOut row d :: resolverOutput searchResp (i + 1) rest
    | none =>
      (match search_instagram_profile row.author_name (searchResp i) with
        | some d => mkOut row d
        | none => emptyOut row) ::
        (if 50 ≤ i then [] else resolverOutput searchResp (i + 1) rest)

/-- The number of Google-search calls made by the same loop: one per
row that falls through to the search branch, with the same
`i >= 50` break. -/
def searchAttempts (searchResp : Nat → SearchResult) : Nat → List Row → Nat
  | _, [] => 0
  | i, row :: rest =>
    match find_instagram_from_description row.instagram_from_description with
    | some _ => searchAttempts searchResp (i + 1) rest
    | none => 1 + if 50 ≤ i then 0 else searchAttempts searchResp (i + 1) rest

/-! ## rank_commenters.py -/

/-- One raw comment record: the columns of the input frame read by
`rank_commenters` (`like_count` is a non-negative integer, timestamps
are the ISO strings produced by extract_comments.py and compared
lexicographically, exactly as pandas compares `object` columns). -/
structure Comment where
  comment_id : String
  video_id : String
  author_name : String
  author_channel_id : String
  author_channel_url : String
  comment_text : String
  like_count : Nat
  published_at : String
deriving DecidableEq

/-- The grouping key of `df.groupby(['author_name', 'author_channel_id',
'author_channel_url'])`. -/
abbrev CKey := String × String × String

/-- The identity triple of a comment record. -/
def ckey (c : Comment) : CKey :=
  (c.author_name, c.author_channel_id, c.author_channel_url)

/-- Strict lexicographic order on character lists, by code point:
Python's `<` on strings, which is the order pandas uses to sort group
keys. -/
def lexLt : List Char → List Char → Bool
  | [], [] => false
  | [], _ :: _ => true
  | _ :: _, [] => false
  | a :: as, b :: bs => if a < b then true else if b < a then false else lexLt as bs

/-- Python `<` on strings. -/
def strLt (a b : String) : Bool := lexLt a.data b.data

/-- Strict lexicographic order on identity triples: the order in which
pandas `groupby` (with its default `sort=True`) emits the groups. -/
def keyLt (a b : CKey) : Bool :=
  strLt a.1 b.1 ||
    (a.1 == b.1 &&
      (strLt a.2.1 b.2.1 || (a.2.1 == b.2.1 && strLt a.2.2 b.2.2)))

/-- Non-strict companion of `keyLt`, used as the sort comparator. -/
def keyLe (a b : CKey) : Bool := !(keyLt b a)

/-- The distinct identity triples of the input, in the ascending order
in which `df.groupby([...])` (default `sort=True`) emits them. -/
def sortedKeys (comments : List Comment) : List CKey :=
  isortBy keyLe ((comments.map ckey).dedup)

/-- The rows of one group: the records whose identity triple is `k`,
in input order (pandas `groupby` preserves the within-group order). -/
def groupOf (comments : List Comment) (k : CKey) : List Comment :=
  comments.filter (fun c => decide (ckey c = k))

/-- pandas `'min'` over a column of strings (lexicographic least). -/
def minStrList : List String → String
  | [] => ""
  | s :: rest => rest.foldl (fun a b => if strLt b a then b else a) s

/-- pandas `'max'` over a column of strings (lexicographic greatest). -/
def maxStrList : List String → String
  | [] => ""
  | s :: rest => rest.foldl (fun a b => if strLt a b then b else a) s

/-- One row of `commenter_stats` after the flatten/score steps of
`rank_commenters` (lines 9–36).  Float arithmetic is modelled exactly
over `ℚ`. -/
structure Agg where
  author_name : String
  author_channel_id : String
  author_channel_url : String
  total_comments : Nat
  total_likes : Nat
  avg_likes_per_comment : ℚ
  sample_comments : String
  videos_commented_on : Nat
  first_comment : String
  last_comment : String
  engagement_score : ℚ
  rank : Nat
deriving DecidableEq

/-- The identity triple of an aggregate row. -/
def aggKey (a : Agg) : CKey :=
  (a.author_name, a.author_channel_id, a.author_channel_url)

/-- The aggregate row of group `k`: the `.agg` dictionary of lines
9–15 (`count`, `sum`, `mean`, first-3 join, `nunique`, `min`, `max`)
followed by the engagement score of lines 25–30.  `rank` is assigned
later and is 0 here. -/
def mkAgg (comments : List Comment) (k : CKey) : Agg :=
  let g := groupOf comments k
  let tc : Nat := g.length
  let tl : Nat := (g.map (fun c => c.like_count)).sum
  let dv : Nat := ((g.map (fun c => c.video_id)).dedup).length
  let avg : ℚ := (tl : ℚ) / (tc : ℚ)
  { author_name := k.1
    author_channel_id := k.2.1
    author_channel_url := k.2.2
    total_comments := tc
    total_likes := tl
    avg_likes_per_comment := avg
    sample_comments := String.intercalate " | " ((g.map (fun c => c.comment_text)).take 3)
    videos_commented_on := dv
    first_comment := minStrList (g.map (fun c => c.published_at))
    last_comment := maxStrList (g.map (fun c => c.published_at))
    engagement_score := 0.4 * (tc : ℚ) + 0.3 * (tl : ℚ) + 0.2 * (dv : ℚ) + 0.1 * avg
    rank := 0 }

/-- `commenter_stats` as produced by the groupby/agg steps: one
aggregate per distinct identity triple, in the sorted key order in
which pandas `groupby` emits the groups. -/
def aggsSortedByKey (comments : List Comment) : List Agg :=
  (sortedKeys comments).map (mkAgg comments)

/-- The ascending comparator underlying
`sort_values('engagement_score', ascending=False)`: pandas `nargsort`
argsorts the column ascending and then reverses the indexer. -/
def scoreAscLe (a b : Agg) : Bool :=
  decide (a.engagement_score ≤ b.engagement_score)

/-- `commenter_stats.sort_values('engagement_score', ascending=False)`
(line 33): pandas computes an ascending argsort of the score column
and reverses it.  The underlying numpy argsort is modelled as stable,
which is exact for the small arrays of the concrete theorems below
(numpy then uses insertion sort); its tie behaviour on large arrays is
unspecified. -/
def aggsSortedByScore (comments : List Comment) : List Agg :=
  (isortBy scoreAscLe (aggsSortedByKey comments)).reverse

/-- Line 36: `commenter_stats['rank'] = range(1, len(commenter_stats)
+ 1)`. -/
def aggsRanked (comments : List Comment) : List Agg :=
  List.zipWith (fun a r => { a with rank := r })
    (aggsSortedByScore comments)
    (List.range' 1 (aggsSortedByScore comments).length)

/-- `rank_commenters(df, limit)` (lines 5–39): aggregate, score, sort,
rank, then `head(limit)`. -/
def rank_commenters (comments : List Comment) (limit : Nat) : List Agg :=
  (aggsRanked comments).take limit

/-! ## extract_comments.py: the Instagram-link extraction of
`get_channel_description` (lines 22–41) -/

/-- The character class `[a-zA-Z0-9_.]` of the four patterns. -/
def isHandleChar (c : Char) : Bool :=
  c.isAlpha || c.isDigit || c = '_' || c = '.'

/-- Case-insensitive literal match: strip `lit` (given in lowercase)
from the front of `s`, comparing lowercased characters. -/
def stripLowerLit : List Char → List Char → Option (List Char)
  | [], s => some s
  | _ :: _, [] => none
  | l :: ls, c :: cs => if c.toLower = l then stripLowerLit ls cs else none

/-- Match `instagram\.com/([a-zA-Z0-9_.]+)` at the head of `s`:
returns the captured handle (original case) and the rest of the
string. -/
def matchUrlAt (s : List Char) : Option (List Char × List Char) :=
  match stripLowerLit "instagram.com/".data s with
  | none => none
  | some rest =>
    let h := rest.takeWhile isHandleChar
    if h.isEmpty then none else some (h, rest.drop h.length)

/-- Match `@([a-zA-Z0-9_.]+)` at the head of `s`. -/
def matchAtSignAt : List Char → Option (List Char × List Char)
  | '@' :: rest =>
    let h := rest.takeWhile isHandleChar
    if h.isEmpty then none else some (h, rest.drop h.length)
  | _ => none

/-- Match `<label>\s*([a-zA-Z0-9_.]+)` at the head of `s`, for the
labels `ig:` and `insta:` (case-insensitive). -/
def matchLabelAt (label : List Char) (s : List Char) : Option (List Char × List Char) :=
  match stripLowerLit label s with
  | none => none
  | some rest =>
    let rest1 := rest.dropWhile isPySpace
    let h := rest1.takeWhile isHandleChar
    if h.isEmpty then none else some (h, rest1.drop h.length)

/-- `re.findall` scanner: at each position try the pattern; on a match
emit the captured group and resume after the match, otherwise advance
one character.  Every matcher consumes at least one character on
success, so `s.length` fuel is exact. -/
def findallAux (m : List Char → Option (List Char × List Char)) :
    Nat → List Char → List (List Char)
  | 0, _ => []
  | _, [] => []
  | fuel + 1, c :: cs =>
    match m (c :: cs) with
    | some (h, rest) => h :: findallAux m fuel rest
    | none => findallAux m fuel cs

/-- `re.findall(pattern, s, re.IGNORECASE)` for one of the four
patterns. -/
def findall (m : List Char → Option (List Char × List Char)) (s : List Char) :
    List (List Char) :=
  findallAux m s.length s

/-- `f"https://instagram.com/{match}"`: both branches of the Python
`if` build the same canonical URL. -/
def canonicalUrl (h : List Char) : String :=
  "https://instagram.com/" ++ String.mk h

/-- The `instagram_patterns` list, in source order. -/
def instagramMatchers : List (List Char → Option (List Char × List Char)) :=
  [matchUrlAt, matchAtSignAt, matchLabelAt "ig:".data, matchLabelAt "insta:".data]

/-- Lines 29–36: `instagram_links = []`, then for each pattern in
order, for each match in scan order, append the canonical URL. -/
def extract_instagram_links (description : String) : List String :=
  instagramMatchers.foldl
    (fun acc m =>
      (findall m description.data).foldl (fun acc2 h => acc2 ++ [canonicalUrl h]) acc)
    []

/-! ## Concrete data used by the concrete theorems -/

/-- A commenter row with no description hit: the search branch is
always taken. -/
def plainRow : Row := ⟨"x", ""⟩

/-- Two commenters with identical engagement statistics (one comment,
zero likes, one video each): their engagement scores tie.  The
commenter named `a` is encountered first, `b` second; lexicographically
`a < b`. -/
def tieComments : List Comment :=
  [⟨"i1", "v", "a", "ca", "ua", "t1", 0, "2024-01-01"⟩,
   ⟨"i2", "v", "b", "cb", "ub", "t2", 0, "2024-01-02"⟩]

/-- The output aggregate of commenter `b` of `tieComments`: rank 1
after the descending score sort. -/
def tieAggB : Agg := { mkAgg tieComments ("b", "cb", "ub") with rank := 1 }

/-- The spec's worked example: a single commenter with 5 comments, 20
total likes (4 each) and 2 distinct videos. -/
def johnComments : List Comment :=
  [⟨"i1", "v1", "john", "cj", "uj", "t1", 4, "2024-01-01"⟩,
   ⟨"i2", "v1", "john", "cj", "uj", "t2", 4, "2024-01-02"⟩,
   ⟨"i3", "v1", "john", "cj", "uj", "t3", 4, "2024-01-03"⟩,
   ⟨"i4", "v2", "john", "cj", "uj", "t4", 4, "2024-01-04"⟩,
   ⟨"i5", "v2", "john", "cj", "uj", "t5", 4, "2024-01-05"⟩]

/-! ## Generic facts about the stable insertion sort -/

theorem insertLe_perm (le : α → α → Bool) (a : α) :
    ∀ acc : List α, (insertLe le a acc).Perm (a :: acc)
  | [] => List.Perm.refl _
  | b :: l => by
    unfold insertLe
    split
    · exact ((insertLe_perm le a l).cons b).trans (List.Perm.swap a b l)
    · exact List.Perm.refl _

theorem isortBy_foldl_perm (le : α → α → Bool) :
    ∀ (l acc : List α),
      (l.foldl (fun acc a => insertLe le a acc) acc).Perm (acc ++ l)
  | [], acc => by simp
  | a :: l, acc => by
    refine (isortBy_foldl_perm le l (insertLe le a acc)).trans ?_
    refine (((insertLe_perm le a acc).append_right l).trans ?_)
    exact List.perm_middle.symm

theorem isortBy_perm (le : α → α → Bool) (l : List α) :
    (isortBy le l).Perm l := by
  simpa [isortBy] using isortBy_foldl_perm le l []

theorem mem_insertLe {le : α → α → Bool} {a x : α} :
    ∀ {acc : List α}, x ∈ insertLe le a acc → x = a ∨ x ∈ acc
  | [], h => by simpa [insertLe] using h
  | b :: l, h => by
    unfold insertLe at h
    split at h
    · rcases List.mem_cons.mp h with h | h
      · exact Or.inr (h ▸ List.mem_cons_self b l)
      · rcases mem_insertLe h with h | h
        · exact Or.inl h
        · exact Or.inr (List.mem_cons_of_mem b h)
    · rcases List.mem_cons.mp h with h | h
      · exact Or.inl h
      · exact Or.inr h

theorem insertLe_pairwise {le : α → α → Bool}
    (htot : ∀ a b, le a b = true ∨ le b a = true)
    (htrans : ∀ a b c, le a b = true → le b c = true → le a c = true)
    (a : α) :
    ∀ {acc : List α}, acc.Pairwise (fun x y => le x y = true) →
      (insertLe le a acc).Pairwise (fun x y => le x y = true)
  | [], _ => by simp [insertLe]
  | b :: l, h => by
    rcases List.pairwise_cons.mp h with ⟨hb, hl⟩
    unfold insertLe
    split
    · rename_i hba
      refine List.pairwise_cons.mpr ⟨?_, insertLe_pairwise htot htrans a hl⟩
      intro x hx
      rcases mem_insertLe hx with rfl | hx
      · exact hba
      · exact hb x hx
    · rename_i hba
      have hab : le a b = true := (htot a b).resolve_right (by simpa using hba)
      refine List.pairwise_cons.mpr ⟨?_, h⟩
      intro x hx
      rcases List.mem_cons.mp hx with rfl | hx
      · exact hab
      · exact htrans a b x hab (hb x hx)

theorem isortBy_pairwise {le : α → α → Bool}
    (htot : ∀ a b, le a b = true ∨ le b a = true)
    (htrans : ∀ a b c, le a b = true → le b c = true → le a c = true) :
    ∀ (l acc : List α), acc.Pairwise (fun x y => le x y = true) →
      (l.foldl (fun acc a => insertLe le a acc) acc).Pairwise
        (fun x y => le x y = true)
  | [], _, h => h
  | a :: l, acc, h =>
    isortBy_pairwise htot htrans l (insertLe le a acc)
      (insertLe_pairwise htot htrans a h)

theorem isortBy_sorted {le : α → α → Bool}
    (htot : ∀ a b, le a b = true ∨ le b a = true)
    (htrans : ∀ a b c, le a b = true → le b c = true → le a c = true)
    (l : List α) :
    (isortBy le l).Pairwise (fun x y => le x y = true) :=
  isortBy_pairwise htot htrans l [] (List.Pairwise.nil)

/-! ## Order facts for the lexicographic comparisons -/

theorem lexLt_irrefl : ∀ a : List Char, lexLt a a = false
  | [] => rfl
  | c :: as => by simp [lexLt, lexLt_irrefl as]

theorem lexLt_trans :
    ∀ {a b c : List Char}, lexLt a b = true → lexLt b c = true → lexLt a c = true
  | [], _ :: _, _ :: _, _, _ => rfl
  | a :: as, b :: bs, c :: cs, hab, hbc => by
    simp only [lexLt] at hab hbc ⊢
    split at hab
    · rename_i h1
      split at hbc
      · rename_i h2
        simp [lt_trans h1 h2]
      · split at hbc
        · exact absurd hbc (by simp)
        · rename_i h2 h3
          have : b = c := le_antisymm (not_lt.mp h3) (not_lt.mp h2)
          simp [this ▸ h1]
    · split at hab
      · exact absurd hab (by simp)
      · rename_i h1 h2
        have hab' : a = b := le_antisymm (not_lt.mp h2) (not_lt.mp h1)
        subst hab'
        split at hbc
        · rename_i h3; simp [h3]
        · split at hbc
          · exact absurd hbc (by simp)
          · rename_i h3 h4
            have hac : a = c := le_antisymm (not_lt.mp h4) (not_lt.mp h3)
            subst hac
            simp [lexLt_trans hab hbc, lt_irrefl]

theorem lexLt_connex :
    ∀ {a b : List Char}, lexLt a b = false → lexLt b a = false → a = b
  | [], [], _, _ => rfl
  | [], _ :: _, h, _ => by simp [lexLt] at h
  | _ :: _, [], _, h => by simp [lexLt] at h
  | a :: as, b :: bs, hab, hba => by
    simp only [lexLt] at hab hba
    split at hab
    · exact absurd hab (by simp)
    · split at hab
      · rename_i h1 h2
        split at hba
        · exact absurd hba (by simp)
        · exact absurd h2 (by rename_i h3; simp [h3])
      · rename_i h1 h2
        have : a = b := le_antisymm (not_lt.mp h2) (not_lt.mp h1)
        subst this
        simp only [lt_irrefl, if_false] at hba
        exact congrArg (a :: ·) (lexLt_connex hab hba)

theorem lexLt_asymm {a b : List Char} (h : lexLt a b = true) : lexLt b a = false := by
  by_contra hb
  have hb' : lexLt b a = true := by simpa using hb
  have := lexLt_trans h hb'
  simp [lexLt_irrefl] at this

theorem strLt_trans {a b c : String} :
    strLt a b = true → strLt b c = true → strLt a c = true :=
  lexLt_trans

theorem strLt_connex {a b : String} (h1 : strLt a b = false)
    (h2 : strLt b a = false) : a = b := by
  have := lexLt_connex (a := a.data) (b := b.data) h1 h2
  cases a; cases b; exact congrArg String.mk this

theorem strLt_asymm {a b : String} (h : strLt a b = true) : strLt b a = false :=
  lexLt_asymm h

theorem strLt_irrefl (a : String) : strLt a a = false := lexLt_irrefl a.data

theorem keyLt_irrefl (k : CKey) : keyLt k k = false := by
  simp [keyLt, strLt_irrefl]

theorem keyLt_trans {a b c : CKey} (h1 : keyLt a b = true)
    (h2 : keyLt b c = true) : keyLt a c = true := by
  simp only [keyLt, Bool.or_eq_true, Bool.and_eq_true, beq_iff_eq] at h1 h2 ⊢
  rcases h1 with h1 | ⟨e1, h1⟩
  · rcases h2 with h2 | ⟨e2, h2⟩
    · exact Or.inl (strLt_trans h1 h2)
    · exact Or.inl (e2 ▸ h1)
  · rcases h2 with h2 | ⟨e2, h2⟩
    · exact Or.inl (e1.symm ▸ h2)
    · refine Or.inr ⟨e1.trans e2, ?_⟩
      rcases h1 with h1 | ⟨f1, h1⟩
      · rcases h2 with h2 | ⟨f2, h2⟩
        · exact Or.inl (strLt_trans h1 h2)
        · exact Or.inl (f2 ▸ h1)
      · rcases h2 with h2 | ⟨f2, h2⟩
        · exact Or.inl (f1.symm ▸ h2)
        · exact Or.inr ⟨f1.trans f2, strLt_trans h1 h2⟩

theorem keyLt_asymm {a b : CKey} (h : keyLt a b = true) : keyLt b a = false := by
  by_contra hb
  have hb' : keyLt b a = true := by simpa using hb
  have := keyLt_trans h hb'
  simp [keyLt_irrefl] at this

theorem keyLt_connex {a b : CKey} (h1 : keyLt a b = false)
    (h2 : keyLt b a = false) : a = b := by
  obtain ⟨a1, a2, a3⟩ := a
  obtain ⟨b1, b2, b3⟩ := b
  by_cases hs1 : strLt a1 b1 = true
  · simp [keyLt, hs1] at h1
  by_cases hs1' : strLt b1 a1 = true
  · simp [keyLt, hs1'] at h2
  have e1 : a1 = b1 :=
    strLt_connex (Bool.not_eq_true _ ▸ hs1) (Bool.not_eq_true _ ▸ hs1')
  subst e1
  simp only [keyLt, strLt_irrefl, Bool.false_or, beq_self_eq_true,
    Bool.true_and] at h1 h2
  by_cases hs2 : strLt a2 b2 = true
  · simp [hs2] at h1
  by_cases hs2' : strLt b2 a2 = true
  · simp [hs2'] at h2
  have e2 : a2 = b2 :=
    strLt_connex (Bool.not_eq_true _ ▸ hs2) (Bool.not_eq_true _ ▸ hs2')
  subst e2
  simp only [strLt_irrefl, Bool.false_or, beq_self_eq_true, Bool.true_and] at h1 h2
  have e3 : a3 = b3 := strLt_connex h1 h2
  rw [e3]

theorem keyLe_total : ∀ a b : CKey, keyLe a b = true ∨ keyLe b a = true := by
  intro a b
  by_cases h : keyLt b a = true
  · exact Or.inr (by simp [keyLe, keyLt_asymm h])
  · exact Or.inl (by simp [keyLe, Bool.not_eq_true _ ▸ h])

theorem keyLe_trans : ∀ a b c : CKey,
    keyLe a b = true → keyLe b c = true → keyLe a c = true := by
  intro a b c h1 h2
  simp only [keyLe, Bool.not_eq_eq_eq_not, Bool.not_true] at h1 h2 ⊢
  by_contra hca
  have hca' : keyLt c a = true := by simpa using hca
  by_cases hcb : keyLt c b = true
  · simp [hcb] at h2
  · by_cases hbc : keyLt b c = true
    · have := keyLt_trans hbc hca'
      simp [this] at h1
    · have : b = c :=
        keyLt_connex (Bool.not_eq_true _ ▸ hbc) (Bool.not_eq_true _ ▸ hcb)
      subst this
      simp [hca'] at h1

/-! ## Facts about the grouping step -/

theorem sortedKeys_nodup (comments : List Comment) :
    (sortedKeys comments).Nodup :=
  ((isortBy_perm keyLe ((comments.map ckey).dedup)).symm).nodup
    (List.nodup_dedup _)

theorem mem_sortedKeys {comments : List Comment} {k : CKey} :
    k ∈ sortedKeys comments ↔ k ∈ comments.map ckey := by
  rw [show sortedKeys comments = isortBy keyLe ((comments.map ckey).dedup) from rfl,
    (isortBy_perm keyLe ((comments.map ckey).dedup)).mem_iff]
  exact List.mem_dedup

theorem sortedKeys_sorted (comments : List Comment) :
    (sortedKeys comments).Pairwise (fun x y => keyLt x y = true) := by
  have hle := isortBy_sorted keyLe_total keyLe_trans ((comments.map ckey).dedup)
  have hne : (sortedKeys comments).Pairwise (fun x y => x ≠ y) :=
    sortedKeys_nodup comments
  refine (hle.and hne).imp ?_
  rintro x y ⟨hxy, hne⟩
  by_contra h
  have h' : keyLt x y = false := by simpa using h
  have hyx : keyLt y x = false := by
    simpa [keyLe, Bool.not_eq_eq_eq_not] using hxy
  exact hne (keyLt_connex h' hyx)

/-! ## Counting lemmas for the partition property -/

theorem sum_map_add {α : Type _} (f g : α → Nat) :
    ∀ l : List α, (l.map (fun k => f k + g k)).sum = (l.map f).sum + (l.map g).sum
  | [] => rfl
  | a :: l => by simp [sum_map_add f g l]; omega

theorem sum_map_indicator_zero {ks : List CKey} {x : CKey} (h : x ∉ ks) :
    (ks.map (fun k => if x = k then 1 else 0)).sum = 0 := by
  induction ks with
  | nil => rfl
  | cons k ks ih =>
    have hxk : x ≠ k := fun e => h (e ▸ List.mem_cons_self k ks)
    have hx : x ∉ ks := fun e => h (List.mem_cons_of_mem k e)
    simp [hxk, ih hx]

theorem sum_map_indicator {ks : List CKey} {x : CKey} (hnd : ks.Nodup)
    (hx : x ∈ ks) : (ks.map (fun k => if x = k then 1 else 0)).sum = 1 := by
  induction ks with
  | nil => cases hx
  | cons k ks ih =>
    rcases List.nodup_cons.mp hnd with ⟨hk, hnd'⟩
    by_cases e : x = k
    · subst e
      simp [sum_map_indicator_zero hk]
    · rcases List.mem_cons.mp hx with e' | hx'
      · exact absurd e' e
      · simp [e, ih hnd' hx']

theorem sum_group_lengths :
    ∀ (l : List Comment) (ks : List CKey), ks.Nodup → (∀ c ∈ l, ckey c ∈ ks) →
      (ks.map (fun k => (l.filter (fun c => decide (ckey c = k))).length)).sum
        = l.length
  | [], ks, _, _ => by simp
  | c :: l, ks, hnd, hcov => by
    have step : ∀ k : CKey,
        ((c :: l).filter (fun c => decide (ckey c = k))).length
          = (if ckey c = k then 1 else 0)
            + (l.filter (fun c => decide (ckey c = k))).length := by
      intro k
      by_cases e : ckey c = k <;> simp [List.filter_cons, e, Nat.add_comm]
    have := sum_map_add (fun k => if ckey c = k then 1 else 0)
      (fun k => (l.filter (fun c => decide (ckey c = k))).length) ks
    calc (ks.map (fun k =>
            ((c :: l).filter (fun c => decide (ckey c = k))).length)).sum
        = (ks.map (fun k => (if ckey c = k then 1 else 0)
            + (l.filter (fun c => decide (ckey c = k))).length)).sum := by
          simp only [step]
      _ = 1 + l.length := by
          rw [this, sum_map_indicator hnd (hcov c (List.mem_cons_self c l)),
            sum_group_lengths l ks hnd
              (fun x hx => hcov x (List.mem_cons_of_mem c hx))]
      _ = (c :: l).length := by simp [Nat.add_comm]

/-! ## Rank and truncation lemmas -/

theorem take_range' : ∀ (n s m : Nat),
    (List.range' s n).take m = List.range' s (min m n)
  | 0, s, m => by simp
  | n + 1, s, 0 => by simp
  | n + 1, s, m + 1 => by
    have h1 : List.range' s (n + 1) = s :: List.range' (s + 1) n := rfl
    have h2 : min (m + 1) (n + 1) = (min m n) + 1 := by omega
    rw [h1, h2]
    show s :: (List.range' (s + 1) n).take m = s :: List.range' (s + 1) (min m n)
    rw [take_range' n (s + 1) m]

theorem map_rank_zipWith : ∀ (l : List Agg) (s : Nat),
    (List.zipWith (fun a r => { a with rank := r }) l
      (List.range' s l.length)).map (fun a => a.rank) = List.range' s l.length
  | [], _ => rfl
  | a :: l, s => by
    have : List.range' s (l.length + 1) = s :: List.range' (s + 1) l.length := rfl
    simp only [List.length_cons, this, List.zipWith_cons_cons, List.map_cons,
      map_rank_zipWith l (s + 1)]

theorem length_aggsRanked (comments : List Comment) :
    (aggsRanked comments).length = (sortedKeys comments).length := by
  have h1 : (aggsSortedByScore comments).length
      = (aggsSortedByKey comments).length := by
    simp only [aggsSortedByScore, List.length_reverse]
    exact (isortBy_perm scoreAscLe (aggsSortedByKey comments)).length_eq
  simp [aggsRanked, List.length_zipWith, List.length_range', h1,
    aggsSortedByKey]

theorem map_rank_aggsRanked (comments : List Comment) :
    (aggsRanked comments).map (fun a => a.rank)
      = List.range' 1 (aggsSortedByScore comments).length :=
  map_rank_zipWith (aggsSortedByScore comments) 1

theorem length_aggsSortedByScore (comments : List Comment) :
    (aggsSortedByScore comments).length = (sortedKeys comments).length := by
  simp only [aggsSortedByScore, List.length_reverse]
  rw [(isortBy_perm scoreAscLe (aggsSortedByKey comments)).length_eq]
  simp [aggsSortedByKey]

theorem mem_zipWith_rank :
    ∀ (l : List Agg) (r : List Nat) (a : Agg),
      a ∈ List.zipWith (fun x n => { x with rank := n }) l r →
      ∃ b ∈ l, ∃ n, a = { b with rank := n }
  | [], _, _, h => by simp at h
  | _ :: _, [], _, h => by simp at h
  | b :: l, n :: r, a, h => by
    rw [List.zipWith_cons_cons, List.mem_cons] at h
    rcases h with h | h
    · exact ⟨b, List.mem_cons_self b l, n, h⟩
    · rcases mem_zipWith_rank l r a h with ⟨b', hb', n', he⟩
      exact ⟨b', List.mem_cons_of_mem b hb', n', he⟩

theorem mem_aggsSortedByScore {comments : List Comment} {a : Agg} :
    a ∈ aggsSortedByScore comments ↔ a ∈ aggsSortedByKey comments := by
  rw [show aggsSortedByScore comments
      = (isortBy scoreAscLe (aggsSortedByKey comments)).reverse from rfl,
    List.mem_reverse,
    (isortBy_perm scoreAscLe (aggsSortedByKey comments)).mem_iff]

/-! ## The tie-order invariant of the score sort -/

/-- Ascending composite order: strictly smaller score, or equal scores
with strictly smaller identity triple. -/
def scoreKeyAsc (x y : Agg) : Prop :=
  x.engagement_score < y.engagement_score ∨
    (x.engagement_score = y.engagement_score ∧
      aggKey x ≠ aggKey y ∧ keyLt (aggKey x) (aggKey y) = true)

theorem aggKey_mkAgg (comments : List Comment) (k : CKey) :
    aggKey (mkAgg comments k) = k := by
  obtain ⟨k1, k2, k3⟩ := k
  rfl

theorem insertLe_pairwise_score (a : Agg) :
    ∀ {acc : List Agg}, acc.Pairwise scoreKeyAsc →
      (∀ b ∈ acc, aggKey b ≠ aggKey a ∧ keyLt (aggKey b) (aggKey a) = true) →
      (insertLe scoreAscLe a acc).Pairwise scoreKeyAsc
  | [], _, _ => by simp [insertLe]
  | b :: l, h, hk => by
    rcases List.pairwise_cons.mp h with ⟨hb, hl⟩
    unfold insertLe
    split
    · rename_i hba
      refine List.pairwise_cons.mpr
        ⟨?_, insertLe_pairwise_score a hl
          (fun x hx => hk x (List.mem_cons_of_mem b hx))⟩
      intro x hx
      rcases mem_insertLe hx with rfl | hx
      · rcases lt_or_eq_of_le (of_decide_eq_true hba) with hlt | heq
        · exact Or.inl hlt
        · exact Or.inr ⟨heq, hk b (List.mem_cons_self b l)⟩
      · exact hb x hx
    · rename_i hba
      have hab : a.engagement_score < b.engagement_score := by
        have h0 : ¬ (b.engagement_score ≤ a.engagement_score) := by
          intro hle
          simp [scoreAscLe, hle] at hba
        exact lt_of_not_le h0
      refine List.pairwise_cons.mpr ⟨?_, h⟩
      intro x hx
      rcases List.mem_cons.mp hx with rfl | hx
      · exact Or.inl hab
      · rcases hb x hx with hlt | ⟨heq, _⟩
        · exact Or.inl (hab.trans hlt)
        · exact Or.inl (heq ▸ hab)

theorem foldl_pairwise_score :
    ∀ (l acc : List Agg), acc.Pairwise scoreKeyAsc →
      l.Pairwise (fun x y => aggKey x ≠ aggKey y ∧ keyLt (aggKey x) (aggKey y) = true) →
      (∀ b ∈ acc, ∀ x ∈ l, aggKey b ≠ aggKey x ∧ keyLt (aggKey b) (aggKey x) = true) →
      (l.foldl (fun acc a => insertLe scoreAscLe a acc) acc).Pairwise scoreKeyAsc
  | [], _, h, _, _ => h
  | a :: l, acc, h, hkey, hcross => by
    rcases List.pairwise_cons.mp hkey with ⟨ha, hl⟩
    refine foldl_pairwise_score l (insertLe scoreAscLe a acc)
      (insertLe_pairwise_score a h
        (fun b hb => hcross b hb a (List.mem_cons_self a l)))
      hl ?_
    intro b hb x hx
    rcases mem_insertLe hb with rfl | hb
    · exact ha x hx
    · exact hcross b hb x (List.mem_cons_of_mem a hx)

theorem aggsSortedByKey_pairwise (comments : List Comment) :
    (aggsSortedByKey comments).Pairwise
      (fun x y => aggKey x ≠ aggKey y ∧ keyLt (aggKey x) (aggKey y) = true) := by
  rw [show aggsSortedByKey comments
      = (sortedKeys comments).map (mkAgg comments) from rfl, List.pairwise_map]
  refine (((sortedKeys_sorted comments).and (sortedKeys_nodup comments)).imp ?_)
  rintro k1 k2 ⟨hlt, hne⟩
  rw [aggKey_mkAgg, aggKey_mkAgg]
  exact ⟨hne, hlt⟩

theorem aggsSortedByScore_pairwise_asc (comments : List Comment) :
    (isortBy scoreAscLe (aggsSortedByKey comments)).Pairwise scoreKeyAsc :=
  foldl_pairwise_score (aggsSortedByKey comments) [] List.Pairwise.nil
    (aggsSortedByKey_pairwise comments) (by intro b hb; cases hb)

/-! ## Resolver budget bound -/

theorem searchAttempts_bound (resp : Nat → SearchResult) :
    ∀ (rows : List Row) (i : Nat),
      (i ≤ 50 → searchAttempts resp i rows ≤ 51 - i) ∧
        (50 ≤ i → searchAttempts resp i rows ≤ 1)
  | [], i => by simp [searchAttempts]
  | row :: rest, i => by
    have ih := searchAttempts_bound resp rest (i + 1)
    cases hfind : find_instagram_from_description row.instagram_from_description with
    | some d =>
      simp only [searchAttempts, hfind]
      refine ⟨fun hi => ?_, fun hi => ?_⟩
      · by_cases h50 : i = 50
        · have := ih.2 (by omega)
          omega
        · have := ih.1 (by omega)
          omega
      · have := ih.2 (by omega)
        omega
    | none =>
      simp only [searchAttempts, hfind]
      by_cases h50 : 50 ≤ i
      · simp only [if_pos h50]
        exact ⟨fun hi => by omega, fun _ => by omega⟩
      · simp only [if_neg h50]
        have := ih.1 (by omega)
        exact ⟨fun _ => by omega, fun hi => by omega⟩

/-! ## Facts about the search-fallback item loop -/

theorem containsSub_nil : ∀ hay : List Char, containsSub [] hay = true
  | [] => rfl
  | _ :: t => by simp [containsSub, containsSub_nil t]

theorem strContains_empty (s : String) : strContains s "" = true :=
  containsSub_nil s.data

theorem cleanUsername_eq_empty {u : String}
    (h : ∀ c ∈ u.data, c = ' ' ∨ c = '@') : cleanUsername u = "" := by
  have hf : u.data.filter (fun c => !(c = ' ' || c = '@')) = [] := by
    rw [List.filter_eq_nil_iff]
    intro a ha
    rcases h a ha with rfl | rfl <;> simp
  show String.mk
      ((u.data.filter (fun c => !(c = ' ' || c = '@'))).map Char.toLower) = ""
  rw [hf]
  rfl

theorem searchItemsLoop_valid :
    ∀ {items : List SearchItem} {c : String} {d : InstagramData},
      searchItemsLoop c items = some d → isValidProfileLink d.instagram_url = true
  | [], _, _, h => by simp [searchItemsLoop] at h
  | item :: rest, c, d, h => by
    unfold searchItemsLoop at h
    split at h
    · rename_i hv
      split at h
      · rcases Option.some.inj h with rfl
        exact hv
      · exact searchItemsLoop_valid h
    · exact searchItemsLoop_valid h


theorem searchItemsLoop_empty_target :
    ∀ items : List SearchItem,
      searchItemsLoop "" items
        = (items.find? (fun it => isValidProfileLink it.link)).map
            (fun it =>
              ⟨it.link, extractIgUsername it.link, "high", "google_search"⟩)
  | [] => rfl
  | item :: rest => by
    unfold searchItemsLoop
    rw [List.find?_cons]
    cases hv : isValidProfileLink item.link with
    | true =>
      simp [hv, strContains_empty]
    | false =>
      simp [hv, searchItemsLoop_empty_target rest]

/-! ## The append structure of the link extraction -/

theorem foldl_append_canonical :
    ∀ (l : List (List Char)) (acc : List String),
      l.foldl (fun a h => a ++ [canonicalUrl h]) acc = acc ++ l.map canonicalUrl
  | [], acc => by simp
  | h :: l, acc => by
    simp [foldl_append_canonical l (acc ++ [canonicalUrl h])]

/-! ## Claim theorems -/

/-- C1 (amended): across any single run the resolver issues at most 51
search attempts — not 50 as claimed: the loop breaks only after fully
processing the first searched row whose 0-based index is ≥ 50, so the
rows at indices 0..50 can each trigger one search. -/
theorem C1_search_budget (resp : Nat → SearchResult) (rows : List Row) :
    searchAttempts resp 0 rows ≤ 51 := by
  have h := (searchAttempts_bound resp rows 0).1 (by omega)
  omega

/-- C1 counterexample: 200 commenters with empty bio text and searches
that find nothing trigger 51 search attempts, not at most 50, and the
output holds only the 51 processed rows — the remaining 149 commenters
are dropped by the `break` instead of appearing with
`confidence = none, source = none`. -/
theorem C1_counterexample :
    searchAttempts (fun _ => SearchResult.noItems) 0
        (List.replicate 200 plainRow) = 51
    ∧ (resolverOutput (fun _ => SearchResult.noItems) 0
        (List.replicate 200 plainRow)).length = 51 :=
  ⟨by decide, by decide⟩

/-- C2 (amended): for a candidate passing the profile-URL filter, the
similarity rule returns `high` only when the cleaned target is a
substring of the lowercased candidate handle; when only the candidate
handle is a substring of the cleaned target the match is accepted but
the tier is `medium`, not `high`. -/
theorem C2_substring_tiers (username : String) (item : SearchItem)
    (rest : List SearchItem) (hv : isValidProfileLink item.link = true) :
    (strContains (lowerStr (extractIgUsername item.link))
        (cleanUsername username) = true →
      search_instagram_profile username (SearchResult.items (item :: rest))
        = some ⟨item.link, extractIgUsername item.link, "high", "google_search"⟩)
    ∧ (strContains (lowerStr (extractIgUsername item.link))
          (cleanUsername username) = false →
        strContains (cleanUsername username)
          (lowerStr (extractIgUsername item.link)) = true →
      search_instagram_profile username (SearchResult.items (item :: rest))
        = some ⟨item.link, extractIgUsername item.link, "medium", "google_search"⟩) := by
  constructor
  · intro h1
    show searchItemsLoop (cleanUsername username) (item :: rest) = _
    unfold searchItemsLoop
    simp [hv, h1]
  · intro h1 h2
    show searchItemsLoop (cleanUsername username) (item :: rest) = _
    unfold searchItemsLoop
    simp [hv, h1, h2]

/-- C2 witness: both tiers of `C2_substring_tiers` at concrete inputs:
target `ab` against candidate `abc` gives `high`; target `abc` against
candidate `ab` gives `medium`. -/
theorem C2_witness :
    (isValidProfileLink "https://instagram.com/abc" = true
      ∧ strContains (lowerStr (extractIgUsername "https://instagram.com/abc"))
          (cleanUsername "ab") = true
      ∧ search_instagram_profile "ab"
          (SearchResult.items [⟨"https://instagram.com/abc", ""⟩])
        = some ⟨"https://instagram.com/abc", "abc", "high", "google_search"⟩)
    ∧ (strContains (lowerStr (extractIgUsername "https://instagram.com/ab"))
          (cleanUsername "abc") = false
      ∧ strContains (cleanUsername "abc")
          (lowerStr (extractIgUsername "https://instagram.com/ab")) = true
      ∧ search_instagram_profile "abc"
          (SearchResult.items [⟨"https://instagram.com/ab", ""⟩])
        = some ⟨"https://instagram.com/ab", "ab", "medium", "google_search"⟩) :=
  ⟨⟨by decide, by decide,
      (C2_substring_tiers "ab" ⟨"https://instagram.com/abc", ""⟩ []
        (by decide)).1 (by decide)⟩,
    ⟨by decide, by decide,
      (C2_substring_tiers "abc" ⟨"https://instagram.com/ab", ""⟩ []
        (by decide)).2 (by decide) (by decide)⟩⟩

/-- C2 counterexample: the cleaned candidate `ab` is a substring of the
cleaned target `abc`, yet the returned tier is `medium`, refuting the
claim that substring containment in either direction yields `high`. -/
theorem C2_counterexample :
    strContains (cleanUsername "abc")
        (lowerStr (extractIgUsername "https://instagram.com/ab")) = true
    ∧ search_instagram_profile "abc"
        (SearchResult.items [⟨"https://instagram.com/ab", ""⟩])
      = some ⟨"https://instagram.com/ab", "ab", "medium", "google_search"⟩
    ∧ ("medium" : String) ≠ "high" :=
  ⟨by decide, by decide, by decide⟩

/-- C3 (amended): the score sort orders aggregates by engagement_score
descending, and two aggregates with equal scores appear in descending
lexicographic order of their identity triples — the groupby step has
already re-ordered the groups lexicographically (losing the
first-encountered order) and `sort_values(ascending=False)` reverses a
stable ascending argsort. -/
theorem C3_tie_order (comments : List Comment) :
    (aggsSortedByScore comments).Pairwise (fun a b =>
      b.engagement_score < a.engagement_score ∨
        (a.engagement_score = b.engagement_score ∧
          keyLt (aggKey b) (aggKey a) = true)) := by
  rw [show aggsSortedByScore comments
      = (isortBy scoreAscLe (aggsSortedByKey comments)).reverse from rfl,
    List.pairwise_reverse]
  refine (aggsSortedByScore_pairwise_asc comments).imp ?_
  rintro a b (hlt | ⟨heq, _, hkey⟩)
  · exact Or.inl hlt
  · exact Or.inr ⟨heq.symm, hkey⟩

/-- C3 counterexample: the groups are encountered in the order `a`,
`b`, both with equal engagement scores, yet the ranked output lists
`b` first — the tie is not broken by first-encountered-group order. -/
theorem C3_counterexample :
    (tieComments.map ckey).dedup = [("a", "ca", "ua"), ("b", "cb", "ub")]
    ∧ (rank_commenters tieComments 100).map
        (fun a => (a.author_name, a.engagement_score, a.rank))
      = [("b", 0.6, 1), ("a", 0.6, 2)] :=
  ⟨by decide, by with_unfolding_all decide⟩

/-- C4 (amended): every aggregate in the ranked output carries
`engagement_score = 0.4*total_comments + 0.3*total_likes +
0.2*distinct_videos + 0.1*avg_likes_per_comment` with
`avg_likes_per_comment = total_likes / total_comments`; the claim's
worked example is wrong — 5 comments, 20 likes, 2 videos score 8.8,
not 9.4. -/
theorem C4_engagement_formula (comments : List Comment) (limit : Nat)
    (a : Agg) (h : a ∈ rank_commenters comments limit) :
    a.engagement_score
        = 0.4 * (a.total_comments : ℚ) + 0.3 * (a.total_likes : ℚ)
          + 0.2 * (a.videos_commented_on : ℚ) + 0.1 * a.avg_likes_per_comment
    ∧ a.avg_likes_per_comment
        = (a.total_likes : ℚ) / (a.total_comments : ℚ) := by
  have h1 : a ∈ aggsRanked comments := List.mem_of_mem_take h
  rcases mem_zipWith_rank _ _ _ h1 with ⟨b, hb, n, rfl⟩
  have hb' : b ∈ aggsSortedByKey comments := mem_aggsSortedByScore.mp hb
  rcases List.mem_map.mp hb' with ⟨k, hk, rfl⟩
  exact ⟨rfl, rfl⟩

/-- C4 witness: the formula instantiated at the rank-1 aggregate of
`tieComments`. -/
theorem C4_witness :
    tieAggB ∈ rank_commenters tieComments 100
    ∧ (tieAggB.engagement_score
        = 0.4 * (tieAggB.total_comments : ℚ) + 0.3 * (tieAggB.total_likes : ℚ)
          + 0.2 * (tieAggB.videos_commented_on : ℚ)
          + 0.1 * tieAggB.avg_likes_per_comment
      ∧ tieAggB.avg_likes_per_comment
        = (tieAggB.total_likes : ℚ) / (tieAggB.total_comments : ℚ)) :=
  ⟨by with_unfolding_all decide,
    C4_engagement_formula tieComments 100 tieAggB (by with_unfolding_all decide)⟩

/-- C4 counterexample: the aggregate with 5 comments, 20 likes and 2
distinct videos scores 8.8 (= 2 + 6 + 0.4 + 0.4), not the claimed
9.4. -/
theorem C4_counterexample :
    (rank_commenters johnComments 100).map (fun a => a.engagement_score)
      = [8.8]
    ∧ (8.8 : ℚ) ≠ 9.4 :=
  ⟨by with_unfolding_all decide, by with_unfolding_all decide⟩

/-- C5 (confirmed): the grouping by the case-sensitive identity triple
assigns every input record to exactly one aggregate (its key occurs in
the nodup list of group keys), and the aggregate comment counts sum to
the number of input records. -/
theorem C5_partition (comments : List Comment) :
    ((aggsSortedByKey comments).map (fun a => a.total_comments)).sum
        = comments.length
    ∧ (sortedKeys comments).Nodup
    ∧ ∀ c ∈ comments, ckey c ∈ sortedKeys comments := by
  refine ⟨?_, sortedKeys_nodup comments, ?_⟩
  · rw [show aggsSortedByKey comments
        = (sortedKeys comments).map (mkAgg comments) from rfl, List.map_map]
    have hfun : ((fun a => a.total_comments) ∘ mkAgg comments)
        = fun k => (comments.filter (fun c => decide (ckey c = k))).length := rfl
    rw [hfun]
    exact sum_group_lengths comments (sortedKeys comments)
      (sortedKeys_nodup comments)
      (fun c hc => mem_sortedKeys.mpr (List.mem_map.mpr ⟨c, hc, rfl⟩))
  · exact fun c hc => mem_sortedKeys.mpr (List.mem_map.mpr ⟨c, hc, rfl⟩)

/-- C5 witness: the partition property applied at `tieComments` and its
first record. -/
theorem C5_witness :
    ((⟨"i1", "v", "a", "ca", "ua", "t1", 0, "2024-01-01"⟩ : Comment)
        ∈ tieComments)
    ∧ ckey (⟨"i1", "v", "a", "ca", "ua", "t1", 0, "2024-01-01"⟩ : Comment)
        ∈ sortedKeys tieComments :=
  ⟨by decide, (C5_partition tieComments).2.2 _ (by decide)⟩

/-- C6 (confirmed): for every comment set with K distinct aggregates
and every limit L, the ranked output has `min L K` rows, their rank
fields are the contiguous sequence `1..min L K` assigned before
truncation, and the L-limited output is the length-L prefix (`take L`)
of the full output. -/
theorem C6_truncation (comments : List Comment) (L : Nat) :
    (rank_commenters comments L).length = min L (sortedKeys comments).length
    ∧ (rank_commenters comments L).map (fun a => a.rank)
        = List.range' 1 (min L (sortedKeys comments).length)
    ∧ rank_commenters comments L
        = (rank_commenters comments (sortedKeys comments).length).take L := by
  have hK : (aggsRanked comments).length = (sortedKeys comments).length :=
    length_aggsRanked comments
  refine ⟨?_, ?_, ?_⟩
  · rw [show rank_commenters comments L = (aggsRanked comments).take L from rfl,
      List.length_take, hK]
  · rw [show rank_commenters comments L = (aggsRanked comments).take L from rfl,
      List.map_take, map_rank_aggsRanked, take_range',
      length_aggsSortedByScore]
  · rw [show rank_commenters comments (sortedKeys comments).length
        = (aggsRanked comments).take (sortedKeys comments).length from rfl,
      ← hK, List.take_length]
    rfl

/-- C7 (amended): the extractor emits candidates grouped by pattern in
the fixed source order (explicit URL, `@`-mention, `ig:`, `insta:`),
each pattern's matches in scan order, every candidate normalised to
`https://instagram.com/<handle>`; it performs no deduplication and does
not interleave patterns by match position. -/
theorem C7_extraction_order (description : String) :
    extract_instagram_links description
      = (findall matchUrlAt description.data).map canonicalUrl
        ++ (findall matchAtSignAt description.data).map canonicalUrl
        ++ (findall (matchLabelAt "ig:".data) description.data).map canonicalUrl
        ++ (findall (matchLabelAt "insta:".data) description.data).map canonicalUrl := by
  simp [extract_instagram_links, instagramMatchers, foldl_append_canonical,
    List.append_assoc]

/-- C7 counterexample: in `"insta: zoe @bob"` the handle `zoe` matches
first in the text, yet `bob` (an `@`-pattern match) is emitted first;
and a duplicated `@bob` mention is emitted twice, so duplicates are not
removed. -/
theorem C7_counterexample :
    extract_instagram_links "insta: zoe @bob"
        = ["https://instagram.com/bob", "https://instagram.com/zoe"]
    ∧ extract_instagram_links "@bob and @bob"
        = ["https://instagram.com/bob", "https://instagram.com/bob"] :=
  ⟨by decide, by decide⟩

/-- C8 (confirmed): when the search collaborator call raises, the
resolver does not crash: the search helper returns `None`, the
commenter is appended with all-empty resolution fields (the
`confidence = none` outcome), exactly one attempt is counted, and the
loop proceeds to the remaining commenters. -/
theorem C8_search_error_recovery (resp : Nat → SearchResult) (i : Nat)
    (row : Row) (rest : List Row)
    (h1 : find_instagram_from_description row.instagram_from_description = none)
    (h2 : resp i = SearchResult.raiseErr) :
    search_instagram_profile row.author_name (resp i) = none
    ∧ resolverOutput resp i (row :: rest)
        = emptyOut row ::
            (if 50 ≤ i then [] else resolverOutput resp (i + 1) rest)
    ∧ searchAttempts resp i (row :: rest)
        = 1 + (if 50 ≤ i then 0 else searchAttempts resp (i + 1) rest) := by
  have hs : search_instagram_profile row.author_name (resp i) = none := by
    rw [h2]
    rfl
  refine ⟨hs, ?_, ?_⟩
  · simp only [resolverOutput, h1, hs]
  · simp only [searchAttempts, h1]

/-- C8 witness: the recovery behaviour at a concrete erroring
collaborator. -/
theorem C8_witness :
    find_instagram_from_description plainRow.instagram_from_description = none
    ∧ (search_instagram_profile plainRow.author_name
          ((fun _ => SearchResult.raiseErr) 0) = none
      ∧ resolverOutput (fun _ => SearchResult.raiseErr) 0 [plainRow]
          = emptyOut plainRow ::
              (if 50 ≤ 0 then []
               else resolverOutput (fun _ => SearchResult.raiseErr) (0 + 1) [])
      ∧ searchAttempts (fun _ => SearchResult.raiseErr) 0 [plainRow]
          = 1 + (if 50 ≤ 0 then 0
                 else searchAttempts (fun _ => SearchResult.raiseErr) (0 + 1) [])) :=
  ⟨by decide,
    C8_search_error_recovery (fun _ => SearchResult.raiseErr) 0 plainRow []
      (by decide) rfl⟩

/-- C9 (confirmed): when the target identity consists only of spaces
and `@` (so its cleaned form is empty), every candidate passing the
profile-URL filter is accepted with confidence `high`, and the result
is exactly the first such candidate. -/
theorem C9_empty_clean_target (username : String)
    (h : ∀ c ∈ username.data, c = ' ' ∨ c = '@') (items : List SearchItem) :
    search_instagram_profile username (SearchResult.items items)
      = (items.find? (fun it => isValidProfileLink it.link)).map
          (fun it =>
            ⟨it.link, extractIgUsername it.link, "high", "google_search"⟩) := by
  show searchItemsLoop (cleanUsername username) items = _
  rw [cleanUsername_eq_empty h]
  exact searchItemsLoop_empty_target items

/-- C9 witness: the all-`@`/space target `"@ @"` accepts the first
candidate passing the URL filter with confidence `high`. -/
theorem C9_witness :
    ("@ @".data.all (fun c => c = ' ' || c = '@') = true)
    ∧ search_instagram_profile "@ @"
        (SearchResult.items
          [⟨"https://instagram.com/p/xyz", ""⟩,
           ⟨"https://instagram.com/anyone", ""⟩])
      = some ⟨"https://instagram.com/anyone", "anyone", "high", "google_search"⟩ := by
  refine ⟨by decide, ?_⟩
  rw [C9_empty_clean_target "@ @" (by decide) _]
  decide

/-- C10 (confirmed): whenever the search fallback returns a candidate,
its URL contains `instagram.com/` and contains none of `/p/`, `/reel/`
and `/tv/`. -/
theorem C10_url_filter (username : String) (resp : SearchResult)
    (d : InstagramData) (h : search_instagram_profile username resp = some d) :
    strContains d.instagram_url "instagram.com/" = true
    ∧ strContains d.instagram_url "/p/" = false
    ∧ strContains d.instagram_url "/reel/" = false
    ∧ strContains d.instagram_url "/tv/" = false := by
  have hv : isValidProfileLink d.instagram_url = true := by
    cases resp with
    | raiseErr => simp [search_instagram_profile] at h
    | httpErr => simp [search_instagram_profile] at h
    | noItems => simp [search_instagram_profile] at h
    | items its => exact searchItemsLoop_valid h
  simp only [isValidProfileLink, Bool.and_eq_true, Bool.not_eq_true',
    Bool.or_eq_false_iff] at hv
  obtain ⟨hA, ⟨hB, hC⟩, hD⟩ := hv
  exact ⟨hA, hB, hC, hD⟩

/-- C10 witness: the filter facts at a concrete successful search. -/
theorem C10_witness :
    search_instagram_profile "ab"
        (SearchResult.items [⟨"https://instagram.com/ab", ""⟩])
      = some ⟨"https://instagram.com/ab", "ab", "high", "google_search"⟩
    ∧ (strContains "https://instagram.com/ab" "instagram.com/" = true
      ∧ strContains "https://instagram.com/ab" "/p/" = false
      ∧ strContains "https://instagram.com/ab" "/reel/" = false
      ∧ strContains "https://instagram.com/ab" "/tv/" = false) :=
  ⟨by decide,
    C10_url_filter "ab" (SearchResult.items [⟨"https://instagram.com/ab", ""⟩])
      ⟨"https://instagram.com/ab", "ab", "high", "google_search"⟩ (by decide)⟩

end YTCA
